import Mathlib

/-!
# Verification of the PMIX PDF parser core

Shallow embedding of `cloud_functions/process_pmix/pmix_parser.py` and the
heuristic validator of `scripts/validate_parsed.py`, together with theorems
settling the frozen specification claims.

Modelling conventions:
* Python `float` currency/quantity values are modelled as exact rationals
  (`ℚ`); every number occurring in these reports is a short decimal, where
  rational arithmetic agrees with the source's float arithmetic.
* Python string operations are modelled at the character-list level
  (`String.data`), restricted to ASCII behaviour (Python's `str.strip`
  also strips some exotic unicode whitespace; `str.isdigit` also accepts
  unicode digits; neither occurs in these documents).
* Fallible conversions (`float(...)`, `int(...)`, which raise `ValueError`)
  return `Option`; an uncaught exception aborting a parse is modelled by the
  surrounding computation returning `none`.
-/

namespace Pmix

/-- Characters treated as whitespace by the model (the ASCII fragment of
Python's `str.strip`/`str.split` whitespace). -/
def isWsChar (c : Char) : Bool :=
  c = ' ' || c = '\t' || c = '\n' || c = '\r'

/-- Drop leading and trailing whitespace from a character list
(Python `str.strip()`). -/
def trimChars (l : List Char) : List Char :=
  ((l.dropWhile isWsChar).reverse.dropWhile isWsChar).reverse

/-- Python `str.strip()`. -/
def pyStrip (s : String) : String :=
  String.mk (trimChars s.data)

/-- Python `s.replace(c, '')` for a single-character pattern: removes every
occurrence of `c`. -/
def pyRemoveChar (c : Char) (s : String) : String :=
  String.mk (s.data.filter (fun x => decide (x ≠ c)))

/-- Python `s.startswith(p)`, via `p.data.isPrefixOf s.data`. -/
def strStarts (s p : String) : Bool :=
  p.data.isPrefixOf s.data

/-- Python `s.endswith(p)`. -/
def strEnds (s p : String) : Bool :=
  p.data.reverse.isPrefixOf s.data.reverse

/-- Substring search on character lists (Python `p in s`). -/
def hasSubList (l p : List Char) : Bool :=
  if p.isPrefixOf l then true
  else
    match l with
    | [] => false
    | _ :: xs => hasSubList xs p

/-- Python `p in s` (substring containment). -/
def hasSubStr (s p : String) : Bool :=
  hasSubList s.data p.data

/-- Python `s.split(c)` for a one-character separator: splits at every
occurrence, keeping empty pieces. -/
def splitOnChar (c : Char) : List Char → List (List Char)
  | [] => [[]]
  | x :: xs =>
    if x = c then [] :: splitOnChar c xs
    else
      match splitOnChar c xs with
      | [] => [[x]]
      | h :: t => (x :: h) :: t

/-- Python `s.split('\n')` on strings. -/
def splitNl (s : String) : List String :=
  (splitOnChar '\n' s.data).map String.mk

/-- Python `s.split()` with no argument: split on whitespace runs,
dropping empty pieces. -/
def splitWs (s : String) : List String :=
  ((splitOnChar ' ' (s.data.map (fun c => if isWsChar c then ' ' else c))).filter
    (fun p => decide (p ≠ []))).map String.mk

/-- Python code-point comparison of strings (`s < t` lexicographically). -/
def charListLe : List Char → List Char → Bool
  | [], _ => true
  | _ :: _, [] => false
  | a :: as, b :: bs =>
    if a.toNat < b.toNat then true
    else if b.toNat < a.toNat then false
    else charListLe as bs

/-- Value of a list of decimal digits (most significant first). -/
def digitsVal (l : List Char) : Nat :=
  l.foldl (fun a c => a * 10 + (c.toNat - 48)) 0

/-- Python `str.isdigit()` restricted to ASCII: nonempty and all digits. -/
def isDigitStr (s : String) : Bool :=
  decide (s.data ≠ []) && s.data.all Char.isDigit

/-- Parse an unsigned decimal literal (digits with at most one `.`,
at least one digit in total), as accepted by Python's `float`. -/
def parseUnsigned? (l : List Char) : Option ℚ :=
  let ip := l.takeWhile Char.isDigit
  match l.drop ip.length with
  | [] => if ip = [] then none else some (digitsVal ip : ℚ)
  | '.' :: fp =>
    if fp.all Char.isDigit && (decide (ip ≠ []) || decide (fp ≠ [])) then
      some ((digitsVal ip : ℚ) + (digitsVal fp : ℚ) / (10 : ℚ) ^ fp.length)
    else none
  | _ => none

/-- Python `float(s)` restricted to plain decimal notation with an optional
sign (scientific notation, `inf`/`nan` and digit-group underscores are not
modelled; none occur in these documents).  `none` models `ValueError`. -/
def parseFloat? (s : String) : Option ℚ :=
  match s.data with
  | '-' :: rest => (parseUnsigned? rest).map (fun q => -q)
  | '+' :: rest => parseUnsigned? rest
  | l => parseUnsigned? l

/-- Truncation toward zero (Python `int(float)` on a float value). -/
def ratTrunc (q : ℚ) : Int :=
  if 0 ≤ q then q.floor else -((-q).floor)

/-- Python `round(q, 2)` (round half to even at two decimal places).
Exact on the rational model; binary floating-point representation
artifacts of the source are not modelled. -/
def pyRound2 (q : ℚ) : ℚ :=
  let s := q * 100
  let f := s.floor
  let r := s - (f : ℚ)
  if r < 1 / 2 then (f : ℚ) / 100
  else if 1 / 2 < r then ((f + 1 : ℤ) : ℚ) / 100
  else (if f % 2 = 0 then (f : ℚ) else ((f + 1 : ℤ) : ℚ)) / 100

/-- Function `parse_currency` from `pmix_parser.py`: strips `$`, `,` and spaces (in the
source's order: three `replace` calls, then `strip`), returns `0.0` for an
empty input or an empty cleaned string, otherwise converts with `float`. -/
def parse_currency (value : String) : Option ℚ :=
  if value = "" then some 0
  else
    let cleaned := pyStrip (pyRemoveChar ' ' (pyRemoveChar ',' (pyRemoveChar '$' value)))
    if cleaned = "" then some 0 else parseFloat? cleaned

/-- Function `parse_quantity` from `pmix_parser.py`: strips whitespace, returns `0`
for an empty input or empty cleaned string, otherwise `int(float(cleaned))`
(truncation toward zero). -/
def parse_quantity (value : String) : Option Int :=
  if value = "" then some 0
  else
    let cleaned := pyStrip value
    if cleaned = "" then some 0 else (parseFloat? cleaned).map ratTrunc

/-! ## Data model

A table cell may be `None` in Python (`Option String`); a table row is a
list of cells.  A word carries its text, left horizontal coordinate `x0`
and vertical position `top`.  A page exposes its extracted tables and its
words (the capability surface of the Document Loader). -/

/-- A row of an extracted table; cells may be `None`. -/
abbrev Row := List (Option String)

/-- A word with its geometry, as exposed by the document loader. -/
structure Word where
  text : String
  x0 : ℚ
  top : ℚ
deriving DecidableEq, Repr

/-- A page: extracted tables plus positioned words. -/
structure PdfPage where
  tables : List (List Row)
  words : List Word
deriving DecidableEq, Repr

/-- An emitted item-sale record (the dict built by both extractors). -/
structure Record where
  report_date : String
  location : String
  primary_category : Option String
  category : String
  item_name : String
  quantity_sold : Int
  net_sales : ℚ
  discount : ℚ
  data_source : String
deriving DecidableEq, Repr

/-- The mutable scan state of both extractors: the current primary-category
context and the grand total seen so far. -/
structure PState where
  ctx : Option String
  gt : Option ℚ
deriving DecidableEq, Repr

/-- Python `Path(pdf_path).name`: the final path component. -/
def pathName (p : String) : String :=
  String.mk (((splitOnChar '/' p.data).getLast?).getD [])

/-- Python `str(row[i] or '')`: the cell at index `i`, with `None` (and the falsy
empty string) collapsing to `""`; `""` for a missing index. -/
def cellStr (row : Row) (i : Nat) : String :=
  ((row.get? i).getD none).getD ""

/-- Python `str(row[3]) if row[3] else '0'` — the raw net-sales cell with `'0'`
substituted for a falsy cell. -/
def netStr (row : Row) : String :=
  if cellStr row 3 = "" then "0" else cellStr row 3

/-- Python `str(row[5]) if len(row) > 5 and row[5] else '0'` (the length guard is
implied by the ≥ 8 cell check made before any use). -/
def discStr (row : Row) : String :=
  if cellStr row 5 = "" then "0" else cellStr row 5

/-- Python `re.match(r'[\d.]+', s)` used as a truthiness test: the string starts
with a digit or a dot. -/
def numLike (s : String) : Bool :=
  match s.data with
  | [] => false
  | c :: _ => c.isDigit || c = '.'

/-! ## Table extractor (`parse_from_table`) -/

/-- The embedded-category search of the first header rule: when the cell
contains a newline, the first newline-separated part that is fully
parenthesized after stripping (Python's `for part in cell0.split('\n')`
with `break`). -/
def findParenPart (cell0 : String) : Option String :=
  if hasSubStr cell0 "\n" then
    ((splitNl cell0).map pyStrip).find? (fun p => strStarts p "(" && strEnds p ")")
  else none

/-- The second header rule: `cell0.split('\n', 1)[0].strip()` when it is
fully parenthesized. -/
def headerFirstLine (cell0 : String) : Option String :=
  let h := pyStrip (((splitNl cell0).headD ""))
  if strStarts h "(" && strEnds h ")" then some h else none

/-- Context update `tok.orElse ctx` written out: a found header token replaces the
context, otherwise the context is kept. -/
def updCtx (tok ctx : Option String) : Option String :=
  match tok with
  | some t => some t
  | none => ctx

/-- Python `cell0 = str(row[0] or '').strip()`. -/
def cell0 (row : Row) : String := pyStrip (cellStr row 0)

/-- Python `cell1 = str(row[1] or '').strip() if row[1] else ''` (identical to
stripping the collapsed cell). -/
def cell1 (row : Row) : String := pyStrip (cellStr row 1)

/-- One iteration of the row loop of `parse_from_table`: returns the new
state and an optional emitted record, or `none` when a `float()` conversion
raises `ValueError` (aborting the parse). -/
def tableStep (rd pn : String) (s : PState) (row : Row) : Option (PState × Option Record) :=
  if row = [] ∨ row.length < 8 then some (s, none)
  else if hasSubStr (cell0 row) "Menu Group" || hasSubStr (cell0 row) "Category" then
    some ({ s with ctx := updCtx (findParenPart (cell0 row)) s.ctx }, none)
  else if hasSubStr (cell0 row) "\n" && strStarts (cell0 row) "(" then
    some ({ s with ctx := updCtx (headerFirstLine (cell0 row)) s.ctx }, none)
  else if strStarts (cell0 row) "(" && strEnds (cell0 row) ")" then
    some ({ s with ctx := some (cell0 row) }, none)
  else if hasSubStr (cell0 row) "Grand Total" then
    (parse_currency (netStr row)).map (fun v => ({ s with gt := some v }, none))
  else if ¬ numLike (cellStr row 2) then some (s, none)
  else if pyStrip (cellStr row 7) = "100.00%" && cell1 row = "" then some (s, none)
  else
    match parse_quantity (cellStr row 2), parse_currency (netStr row),
        parse_currency (discStr row) with
    | some q, some n, some d =>
      some (s, some ⟨rd, "senso-sushi", s.ctx, cell0 row, cell1 row, q,
        pyRound2 n, pyRound2 d, "pmix-pdf:" ++ pn⟩)
    | _, _, _ => none

/-- Run a step function over a list, threading the state, collecting the
emitted records, and propagating an abort. -/
def runSteps (step : PState → α → Option (PState × Option Record)) :
    PState → List α → Option (PState × List Record)
  | s, [] => some (s, [])
  | s, a :: l =>
    match step s a with
    | none => none
    | some (s', r?) =>
      match runSteps step s' l with
      | none => none
      | some (sf, recs) => some (sf, r?.toList ++ recs)

/-- Function `parse_from_table`: scans the rows with an initially empty state and
returns the records together with the grand total found in the PDF. -/
def parse_from_table (rows : List Row) (rd pp : String) :
    Option (List Record × Option ℚ) :=
  (runSteps (tableStep rd (pathName pp)) ⟨none, none⟩ rows).map
    (fun p => (p.2, p.1.gt))

/-! ## Format dispatcher (`find_data_table`) -/

/-- The qualifying-row test of `find_data_table`:
`row and len(row) >= 8 and row[0] and (row[0].startswith('(') or row[2] and re.match(r'[\d.]+', str(row[2])))`. -/
def dtRowOk (row : Row) : Bool :=
  decide (row ≠ []) && decide (8 ≤ row.length) &&
    (decide (cellStr row 0 ≠ "") &&
      (strStarts (cellStr row 0) "(" ||
        (decide (cellStr row 2 ≠ "") && numLike (cellStr row 2))))

/-- Per page, only the first table with more than 10 rows is examined
(the trailing `break` of the table loop); its rows are kept when some row
qualifies, and the remaining tables are never looked at. -/
def pageTableRows (tables : List (List Row)) : List Row :=
  match tables.find? (fun t => decide (10 < t.length)) with
  | some t => if t.any dtRowOk then t else []
  | none => []

/-- Function `find_data_table`: the concatenated rows of the accepted tables of all
pages, or `None` when no page contributed any. -/
def find_data_table (pages : List PdfPage) : Option (List Row) :=
  let all := (pages.map (fun p => pageTableRows p.tables)).flatten
  if all = [] then none else some all

/-! ## Word-position extractor (`parse_from_words`) -/

/-- Stable insertion into a `le`-sorted list, placing the new element after
existing elements it does not strictly precede. -/
def insertLe (le : α → α → Bool) (a : α) : List α → List α
  | [] => [a]
  | b :: l => if le b a then b :: insertLe le a l else a :: b :: l

/-- Stable sort (Python `sorted` / `list.sort`): elements are inserted in
original order, each landing after its equals. -/
def sortLe (le : α → α → Bool) (l : List α) : List α :=
  l.foldl (fun acc a => insertLe le a acc) []

/-- Lexicographic comparison of `(top, x0, text)` tuples, as Python compares
the gathered word tuples. -/
def tupLe (a b : ℚ × ℚ × String) : Bool :=
  decide (a.1 < b.1) ||
    (decide (a.1 = b.1) &&
      (decide (a.2.1 < b.2.1) ||
        (decide (a.2.1 = b.2.1) && charListLe a.2.2.data b.2.2.data)))

/-- The words of the page grouped at vertical position `y`
(`rows_by_y[y]`, in extraction order). -/
def rowWordsAt (ws : List Word) (y : ℚ) : List Word :=
  ws.filter (fun w => decide (w.top = y))

/-- The distinct vertical positions of the page, ascending
(`sorted(rows_by_y.items())`). -/
def yKeys (ws : List Word) : List ℚ :=
  sortLe (fun a b => decide (a ≤ b)) ((ws.map Word.top).dedup)

/-- A vertical position holds a data row iff some purely numeric word starts
in the quantity band `[185, 220)`. -/
def hasQty (rw : List Word) : Bool :=
  rw.any (fun w => isDigitStr w.text && decide (185 ≤ w.x0) && decide (w.x0 < 220))

/-- The data rows of a page: `(y, row words)` for qualifying vertical
positions, in ascending `y` order. -/
def pageDataRows (ws : List Word) : List (ℚ × List Word) :=
  (yKeys ws).filterMap (fun y =>
    let rw := rowWordsAt ws y
    if hasQty rw then some (y, rw) else none)

/-- Space-join of strings (Python `' '.join(l)`). -/
def joinSpace (l : List String) : String :=
  String.mk (((l.map String.data).intersperse [' ']).flatten)

/-- Gather the text of a horizontal band around a data row: words of the
page within `tol` vertical units whose `x0` passes `inBand`, as
`(top, x0, text)` tuples sorted lexicographically, space-joined, stripped. -/
def gatherBand (ws : List Word) (y tol : ℚ) (inBand : ℚ → Bool) : String :=
  pyStrip (joinSpace ((sortLe tupLe ((ws.filter
      (fun w => decide (|w.top - y| ≤ tol) && inBand w.x0)).map
    (fun w => (w.top, w.x0, w.text)))).map (fun t => t.2.2)))

/-- Everything `parse_from_words` derives from one data row before
classifying it. -/
structure DRow where
  categoryText : String
  itemName : String
  qty : Int
  currencyWords : List String
  indicator : Bool
deriving DecidableEq, Repr

/-- Derivation of a data row at vertical position `y` with row words `rw`
on a page with words `ws`: category text (±10, x < 85), item name
(±15, 85 ≤ x < 185), the first numeric quantity word of the row, the
`$`-words at x ≥ 220 in ascending `x0`, and the `100.00`-at-`x0 > 500`
subtotal indicator. -/
def deriveRow (ws : List Word) (y : ℚ) (rw : List Word) : DRow :=
  { categoryText := gatherBand ws y 10 (fun x => decide (x < 85))
    itemName := gatherBand ws y 15 (fun x => decide (85 ≤ x) && decide (x < 185))
    qty :=
      match (rw.filter (fun w =>
          decide (185 ≤ w.x0) && decide (w.x0 < 220) && isDigitStr w.text)).head? with
      | some w => (digitsVal w.text.data : Int)
      | none => 0
    currencyWords := ((sortLe (fun a b => decide (a.x0 ≤ b.x0)) rw).filter
      (fun w => decide (220 ≤ w.x0) && strStarts w.text "$")).map Word.text
    indicator := rw.any (fun w => decide (w.text = "100.00") && decide (500 < w.x0)) }

/-- Python `parse_currency(currency_words[1]) if len(currency_words) > 1 else 0.0`. -/
def wNet? (d : DRow) : Option ℚ :=
  match d.currencyWords.get? 1 with
  | some s => parse_currency s
  | none => some 0

/-- Python `parse_currency(currency_words[3]) if len(currency_words) > 3 else 0.0`. -/
def wDisc? (d : DRow) : Option ℚ :=
  match d.currencyWords.get? 3 with
  | some s => parse_currency s
  | none => some 0

/-- Classification of one derived data row (the body of the data-row loop
of `parse_from_words`).  The two currency conversions happen before the
classification, exactly as in the source, so a malformed `$`-word aborts
regardless of the branch taken. -/
def wordStep (rd pn : String) (s : PState) (d : DRow) : Option (PState × Option Record) :=
  match wNet? d, wDisc? d with
  | some net, some disc =>
    if strStarts d.categoryText "(" && strEnds d.categoryText ")" then
      some ({ s with ctx := some d.categoryText }, none)
    else if hasSubStr d.categoryText "Grand" && hasSubStr d.categoryText "Total" then
      some ({ s with gt := some net }, none)
    else if d.indicator && ¬ strStarts d.categoryText "(" && d.itemName = "" then
      some (s, none)
    else if d.categoryText = "" then
      some (s, none)
    else
      some (s, some ⟨rd, "senso-sushi", s.ctx, d.categoryText, d.itemName, d.qty,
        pyRound2 net, pyRound2 disc, "pmix-pdf:" ++ pn⟩)
  | _, _ => none

/-- The document's derived data rows, page by page (the state threads
across pages in the source, so the scan is equivalent to one pass over this
concatenation). -/
def docDRows (pages : List PdfPage) : List DRow :=
  (pages.map (fun p => (pageDataRows p.words).map
    (fun q => deriveRow p.words q.1 q.2))).flatten

/-- Function `parse_from_words`: scans all data rows of all pages with an initially
empty state. -/
def parse_from_words (pages : List PdfPage) (rd pp : String) :
    Option (List Record × Option ℚ) :=
  (runSteps (wordStep rd (pathName pp)) ⟨none, none⟩ (docDRows pages)).map
    (fun p => (p.2, p.1.gt))

/-- Function `parse_pmix_pdf` (minus filename/date handling, which the claims do not
touch): table extraction when the dispatcher found data-table rows,
word-position extraction otherwise. -/
def parse_pmix_pdf (pages : List PdfPage) (rd pp : String) :
    Option (List Record × Option ℚ) :=
  match find_data_table pages with
  | some rows => parse_from_table rows rd pp
  | none => parse_from_words pages rd pp

/-! ## Grand-total validator (`validate_totals` in `pmix_parser.py`)

The source formats its message with an f-string; the model abstracts each
message to a constructor carrying the interpolated values. -/

/-- The three messages `validate_totals` can produce. -/
inductive VMsg
  | noGrandTotal
  | mismatch (calcTotal pdft : ℚ)
  | validated (calcTotal : ℚ)
deriving DecidableEq, Repr

/-- Function `validate_totals`: advisory pass when no grand total was found;
otherwise a failure flag iff the calculated sum differs from the PDF total
by more than 1.00. -/
def validate_totals (records : List Record) (gt : Option ℚ) : Bool × VMsg :=
  match gt with
  | none => (true, VMsg.noGrandTotal)
  | some t =>
    let c := (records.map Record.net_sales).sum
    if decide (1 < |c - t|) then (false, VMsg.mismatch c t)
    else (true, VMsg.validated c)

/-! ## Heuristic validator (`validate_with_claude` in `scripts/validate_parsed.py`)

The PDF text summary extracted by the script is never used by the decision
logic, so the model omits it; issue strings are abstracted to constructors
carrying the interpolated values, and the per-category aggregate map of
`calculate_totals` (unused by the status decision) is dropped. -/

/-- The issue kinds `validate_with_claude` can record. -/
inductive Issue
  | totalMismatch (calcTotal pdft diff : ℚ)
  | suspiciousItemName (item cat : String)
  | duplicateWords (cat : String)
deriving DecidableEq, Repr

/-- Python `calculate_totals(...)['total_sales']`: the rounded sum of net sales. -/
def total_sales (records : List Record) : ℚ :=
  pyRound2 ((records.map Record.net_sales).sum)

/-- The per-record heuristic checks, in source order: a short item name
outside the `['', 'GF', 'V']` allow-list, then duplicated words in the
category label. -/
def recordIssues (r : Record) : List Issue :=
  (if r.item_name.length ≤ 2
      && ¬ (r.item_name = "" ∨ r.item_name = "GF" ∨ r.item_name = "V") then
    [Issue.suspiciousItemName r.item_name r.category]
  else []) ++
  (let ws := splitWs r.category
   if ws.length ≠ ws.dedup.length then [Issue.duplicateWords r.category] else [])

/-- The outcome record of `validate_with_claude` (category counts and total
quantity omitted: they do not feed the status). -/
structure VResult where
  status : String
  issues : List Issue
  calculated_total : ℚ
  pdf_total : Option ℚ
  record_count : Nat
deriving DecidableEq, Repr

/-- Function `validate_with_claude`: total-mismatch check (tolerance 1.00) followed
by the heuristics over the first 10 records; status `"approved"` iff no
issue was recorded. -/
def validate_with_claude (records : List Record) (pdf_total : Option ℚ) : VResult :=
  let ts := total_sales records
  let issues0 :=
    match pdf_total with
    | some t => if decide (1 < |ts - t|) then [Issue.totalMismatch ts t (|ts - t|)] else []
    | none => []
  let issues := issues0 ++ ((records.take 10).map recordIssues).flatten
  { status := if issues = [] then "approved" else "flagged"
    issues := issues
    calculated_total := ts
    pdf_total := pdf_total
    record_count := records.length }

/-! ## Spec-side summaries and shared lemmas -/

/-- Helper: `updCtx` generalized over the token type. -/
def lastTokB (t acc : Option β) : Option β :=
  match t with
  | some x => some x
  | none => acc

/-- The token of the last element of `l` carrying one, with default `c`
("the last header wins"). -/
def lastTokFrom (tok : α → Option β) (c : Option β) (l : List α) : Option β :=
  l.foldl (fun acc a => lastTokB (tok a) acc) c

/-- The header token of a table row: the parenthesized label the row sets
as primary-category context, when any (mirrors the three header rules of
`parse_from_table`; every other row carries no token). -/
def tableHeaderTok (row : Row) : Option String :=
  if row = [] ∨ row.length < 8 then none
  else if hasSubStr (cell0 row) "Menu Group" || hasSubStr (cell0 row) "Category" then
    findParenPart (cell0 row)
  else if hasSubStr (cell0 row) "\n" && strStarts (cell0 row) "(" then
    headerFirstLine (cell0 row)
  else if strStarts (cell0 row) "(" && strEnds (cell0 row) ")" then some (cell0 row)
  else none

/-- The grand-total value of a table row: the parsed net-sales cell when the
row reaches the `Grand Total` rule (first cell contains `"Grand Total"` and
no earlier header rule consumed the row) and the cell parses. -/
def tableGtTok (row : Row) : Option ℚ :=
  if row = [] ∨ row.length < 8 then none
  else if hasSubStr (cell0 row) "Menu Group" || hasSubStr (cell0 row) "Category" then none
  else if hasSubStr (cell0 row) "\n" && strStarts (cell0 row) "(" then none
  else if strStarts (cell0 row) "(" && strEnds (cell0 row) ")" then none
  else if hasSubStr (cell0 row) "Grand Total" then parse_currency (netStr row)
  else none

/-- The header token of a derived word row: its category text when fully
parenthesized. -/
def wordHeaderTok (d : DRow) : Option String :=
  if strStarts d.categoryText "(" && strEnds d.categoryText ")" then
    some d.categoryText
  else none

/-- The grand-total value of a derived word row: its parsed net-sales value
when the category text is not fully parenthesized but contains `"Grand"`
and `"Total"`. -/
def wordGtTok (d : DRow) : Option ℚ :=
  if strStarts d.categoryText "(" && strEnds d.categoryText ")" then none
  else if hasSubStr d.categoryText "Grand" && hasSubStr d.categoryText "Total" then
    wNet? d
  else none

theorem lastTokFrom_nil (tok : α → Option β) (c : Option β) :
    lastTokFrom tok c [] = c := rfl

/-- When no element of the list carries a token, the default survives. -/
theorem lastTokFrom_none (tok : α → Option β) (c : Option β) (l : List α)
    (h : ∀ a ∈ l, tok a = none) : lastTokFrom tok c l = c := by
  induction l generalizing c with
  | nil => rfl
  | cons a t ih =>
    unfold lastTokFrom at *
    simp only [List.foldl_cons]
    rw [h a (List.mem_cons_self a t)]
    exact ih c (fun x hx => h x (List.mem_cons_of_mem a hx))

theorem lastTokFrom_cons (tok : α → Option β) (c : Option β) (a : α) (l : List α) :
    lastTokFrom tok c (a :: l) = lastTokFrom tok (lastTokB (tok a) c) l := rfl

theorem runSteps_nil (step : PState → α → Option (PState × Option Record)) (s : PState) :
    runSteps step s [] = some (s, []) := rfl

theorem runSteps_cons (step : PState → α → Option (PState × Option Record))
    (s : PState) (a : α) (l : List α) :
    runSteps step s (a :: l) =
      match step s a with
      | none => none
      | some (s', r?) =>
        match runSteps step s' l with
        | none => none
        | some (sf, recs) => some (sf, r?.toList ++ recs) := rfl

theorem runSteps_append (step : PState → α → Option (PState × Option Record))
    (xs ys : List α) (s : PState) :
    runSteps step s (xs ++ ys) =
      match runSteps step s xs with
      | none => none
      | some (s1, r1) =>
        match runSteps step s1 ys with
        | none => none
        | some (s2, r2) => some (s2, r1 ++ r2) := by
  induction xs generalizing s with
  | nil =>
    simp only [List.nil_append, runSteps_nil]
    cases runSteps step s ys with
    | none => rfl
    | some p => obtain ⟨s2, r2⟩ := p; simp
  | cons a l ih =>
    rw [List.cons_append, runSteps_cons, runSteps_cons]
    cases step s a with
    | none => rfl
    | some p =>
      obtain ⟨s', r?⟩ := p
      simp only
      rw [ih s']
      cases runSteps step s' l with
      | none => rfl
      | some p1 =>
        obtain ⟨s1, r1⟩ := p1
        simp only
        cases runSteps step s1 ys with
        | none => rfl
        | some p2 => obtain ⟨s2, r2⟩ := p2; simp

/-- A row whose step returns the unchanged state and no record can be
removed from the scan without affecting anything. -/
theorem runSteps_skip (step : PState → α → Option (PState × Option Record))
    (s : PState) (a : α) (l : List α) (h : step s a = some (s, none)) :
    runSteps step s (a :: l) = runSteps step s l := by
  simp only [runSteps, h]
  cases runSteps step s l with
  | none => rfl
  | some p => obtain ⟨sf, recs⟩ := p; simp

/-- Generic "last token wins" invariant for any `Option`-valued state
projection whose evolution at each step is governed by a token function. -/
theorem runSteps_proj (step : PState → α → Option (PState × Option Record))
    (proj : PState → Option β) (tok : α → Option β)
    (H : ∀ s a s' r?, step s a = some (s', r?) →
      proj s' = lastTokB (tok a) (proj s)) :
    ∀ (l : List α) (s sf : PState) (recs : List Record),
      runSteps step s l = some (sf, recs) →
      proj sf = lastTokFrom tok (proj s) l := by
  intro l
  induction l with
  | nil => intro s sf recs h; simp [runSteps_nil] at h; rw [lastTokFrom_nil, ← h.1]
  | cons a t ih =>
    intro s sf recs h
    rw [lastTokFrom_cons]
    rw [runSteps_cons] at h
    cases hs : step s a with
    | none => rw [hs] at h; exact absurd h (by simp)
    | some p =>
      obtain ⟨s', r?⟩ := p
      rw [hs] at h
      simp only at h
      cases hr : runSteps step s' t with
      | none => rw [hr] at h; exact absurd h (by simp)
      | some p1 =>
        obtain ⟨s1, r1⟩ := p1
        rw [hr] at h
        simp at h
        rw [← H s a s' r? hs]
        exact h.1 ▸ ih s' s1 r1 hr

/-- Every record in the output of a scan satisfies any property guaranteed
by the step function for emitted records. -/
theorem runSteps_records (step : PState → α → Option (PState × Option Record))
    (P : Record → Prop) (l : List α)
    (H : ∀ s a s' rec, a ∈ l → step s a = some (s', some rec) → P rec) :
    ∀ (s sf : PState) (recs : List Record),
      runSteps step s l = some (sf, recs) → ∀ r ∈ recs, P r := by
  induction l with
  | nil => intro s sf recs h; simp [runSteps_nil] at h; intro r hr; rw [h.2] at hr; simp at hr
  | cons a t ih =>
    intro s sf recs h r hr
    rw [runSteps_cons] at h
    cases hs : step s a with
    | none => rw [hs] at h; exact absurd h (by simp)
    | some p =>
      obtain ⟨s', r?⟩ := p
      rw [hs] at h
      simp only at h
      cases hrun : runSteps step s' t with
      | none => rw [hrun] at h; exact absurd h (by simp)
      | some p1 =>
        obtain ⟨s1, r1⟩ := p1
        rw [hrun] at h
        simp at h
        rw [← h.2] at hr
        rcases List.mem_append.mp hr with hmem | hmem
        · cases r? with
          | none => simp [Option.toList] at hmem
          | some rec =>
            simp [Option.toList] at hmem
            exact hmem ▸ H s a s' rec (List.mem_cons_self a t) hs
        · exact ih (fun s a s' rec ha => H s a s' rec (List.mem_cons_of_mem _ ha)) s' s1 r1 hrun r hmem

set_option maxHeartbeats 1000000 in
/-- Exhaustive case analysis of one table-row step: abort, silent skip,
header row, grand-total row, or record emission. -/
theorem tableStep_cases (rd pn : String) (s : PState) (row : Row) :
    (tableStep rd pn s row = none ∧ tableHeaderTok row = none ∧ tableGtTok row = none)
  ∨ (tableStep rd pn s row = some (s, none) ∧ tableHeaderTok row = none ∧
      tableGtTok row = none)
  ∨ (∃ t, tableHeaderTok row = some t ∧ tableGtTok row = none ∧
      tableStep rd pn s row = some (⟨some t, s.gt⟩, none))
  ∨ (∃ v, tableGtTok row = some v ∧ tableHeaderTok row = none ∧
      tableStep rd pn s row = some (⟨s.ctx, some v⟩, none))
  ∨ (∃ q n d, tableHeaderTok row = none ∧ tableGtTok row = none ∧
      numLike (cellStr row 2) = true ∧
      parse_quantity (cellStr row 2) = some q ∧
      parse_currency (netStr row) = some n ∧
      parse_currency (discStr row) = some d ∧
      ¬ (pyStrip (cellStr row 7) = "100.00%" ∧ cell1 row = "") ∧
      tableStep rd pn s row = some (s, some
        ⟨rd, "senso-sushi", s.ctx, cell0 row, cell1 row, q,
          pyRound2 n, pyRound2 d, "pmix-pdf:" ++ pn⟩)) := by
  unfold tableStep tableHeaderTok tableGtTok
  split_ifs with h1 h2 h3 h4 h5 h6 h7
  · exact Or.inr (Or.inl ⟨rfl, rfl, rfl⟩)
  · cases hf : findParenPart (cell0 row) with
    | none => exact Or.inr (Or.inl ⟨by simp [updCtx, hf], rfl, rfl⟩)
    | some t => exact Or.inr (Or.inr (Or.inl ⟨t, rfl, rfl, by simp [updCtx, hf]⟩))
  · cases hf : headerFirstLine (cell0 row) with
    | none => exact Or.inr (Or.inl ⟨by simp [updCtx, hf], rfl, rfl⟩)
    | some t => exact Or.inr (Or.inr (Or.inl ⟨t, rfl, rfl, by simp [updCtx, hf]⟩))
  · exact Or.inr (Or.inr (Or.inl ⟨cell0 row, rfl, rfl, rfl⟩))
  · cases hc : parse_currency (netStr row) with
    | none => exact Or.inl ⟨by simp, rfl, rfl⟩
    | some v => exact Or.inr (Or.inr (Or.inr (Or.inl ⟨v, rfl, rfl, by simp⟩)))
  all_goals try exact Or.inr (Or.inl ⟨rfl, rfl, rfl⟩)
  cases hq : parse_quantity (cellStr row 2) with
  | none => exact Or.inl ⟨rfl, rfl, rfl⟩
  | some q =>
    cases hn : parse_currency (netStr row) with
    | none => exact Or.inl ⟨rfl, rfl, rfl⟩
    | some n =>
      cases hd : parse_currency (discStr row) with
      | none => exact Or.inl ⟨rfl, rfl, rfl⟩
      | some d =>
        refine Or.inr (Or.inr (Or.inr (Or.inr
          ⟨q, n, d, rfl, rfl, h6, rfl, rfl, rfl, ?_, rfl⟩)))
        simpa using h7

theorem tableStep_ctx (rd pn : String) (s : PState) (row : Row) (s' : PState)
    (r? : Option Record) (h : tableStep rd pn s row = some (s', r?)) :
    s'.ctx = lastTokB (tableHeaderTok row) s.ctx := by
  rcases tableStep_cases rd pn s row with
      ⟨ha, _, _⟩ | ⟨ha, ht, _⟩ | ⟨t, ht, _, ha⟩ | ⟨v, _, ht, ha⟩ |
      ⟨q, n, d, ht, _, _, _, _, _, _, ha⟩ <;> rw [ha] at h
  · exact absurd h (by simp)
  · rw [ht]; simp at h; rw [← h.1]; rfl
  · rw [ht]; simp at h; rw [← h.1]; rfl
  · rw [ht]; simp at h; rw [← h.1]; rfl
  · rw [ht]; simp at h; rw [← h.1]; rfl

theorem tableStep_gt (rd pn : String) (s : PState) (row : Row) (s' : PState)
    (r? : Option Record) (h : tableStep rd pn s row = some (s', r?)) :
    s'.gt = lastTokB (tableGtTok row) s.gt := by
  rcases tableStep_cases rd pn s row with
      ⟨ha, _, _⟩ | ⟨ha, _, ht⟩ | ⟨t, _, ht, ha⟩ | ⟨v, ht, _, ha⟩ |
      ⟨q, n, d, _, ht, _, _, _, _, _, ha⟩ <;> rw [ha] at h
  · exact absurd h (by simp)
  · rw [ht]; simp at h; rw [← h.1]; rfl
  · rw [ht]; simp at h; rw [← h.1]; rfl
  · rw [ht]; simp at h; rw [← h.1]; rfl
  · rw [ht]; simp at h; rw [← h.1]; rfl

theorem tableStep_header (rd pn : String) (s : PState) (row : Row) (t : String)
    (h : tableHeaderTok row = some t) :
    tableStep rd pn s row = some ({ s with ctx := some t }, none) := by
  rcases tableStep_cases rd pn s row with
      ⟨_, ht, _⟩ | ⟨_, ht, _⟩ | ⟨u, ht, _, ha⟩ | ⟨v, _, ht, _⟩ |
      ⟨q, n, d, ht, _, _, _, _, _, _, _⟩
  · rw [ht] at h; exact absurd h (by simp)
  · rw [ht] at h; exact absurd h (by simp)
  · rw [ht] at h; simp at h; rw [ha, h]
  · rw [ht] at h; exact absurd h (by simp)
  · rw [ht] at h; exact absurd h (by simp)

theorem tableStep_gtRow (rd pn : String) (s : PState) (row : Row) (v : ℚ)
    (h : tableGtTok row = some v) :
    tableStep rd pn s row = some ({ s with gt := some v }, none) := by
  rcases tableStep_cases rd pn s row with
      ⟨_, _, ht⟩ | ⟨_, _, ht⟩ | ⟨u, _, ht, _⟩ | ⟨w, ht, _, ha⟩ |
      ⟨q, n, d, _, ht, _, _, _, _, _, _⟩
  · rw [ht] at h; exact absurd h (by simp)
  · rw [ht] at h; exact absurd h (by simp)
  · rw [ht] at h; exact absurd h (by simp)
  · rw [ht] at h; simp at h; rw [ha, h]
  · rw [ht] at h; exact absurd h (by simp)

theorem tableStep_emit (rd pn : String) (s : PState) (row : Row) (s' : PState)
    (rec : Record) (h : tableStep rd pn s row = some (s', some rec)) :
    s' = s ∧ rec.primary_category = s.ctx ∧ numLike (cellStr row 2) = true ∧
      ∃ q, parse_quantity (cellStr row 2) = some q ∧ rec.quantity_sold = q := by
  rcases tableStep_cases rd pn s row with
      ⟨ha, _, _⟩ | ⟨ha, _, _⟩ | ⟨t, _, _, ha⟩ | ⟨v, _, _, ha⟩ |
      ⟨q, n, d, _, _, hnum, hq, _, _, _, ha⟩ <;> rw [ha] at h
  · exact absurd h (by simp)
  · simp at h
  · simp at h
  · simp at h
  · simp at h
    refine ⟨h.1.symm, ?_, hnum, q, hq, ?_⟩
    · rw [← h.2]
    · rw [← h.2]

/-- A table row whose percent-of-category cell strips to `"100.00%"` and
whose item-name cell strips to empty never emits a record. -/
theorem tableStep_subtotal (rd pn : String) (s : PState) (row : Row)
    (out : PState × Option Record)
    (hp : pyStrip (cellStr row 7) = "100.00%") (hi : cell1 row = "")
    (h : tableStep rd pn s row = some out) : out.2 = none := by
  rcases tableStep_cases rd pn s row with
      ⟨ha, _, _⟩ | ⟨ha, _, _⟩ | ⟨t, _, _, ha⟩ | ⟨v, _, _, ha⟩ |
      ⟨q, n, d, _, _, _, _, _, _, hno, ha⟩ <;> rw [ha] at h
  · exact absurd h (by simp)
  · rw [← Option.some_inj.mp h]
  · rw [← Option.some_inj.mp h]
  · rw [← Option.some_inj.mp h]
  · exact absurd ⟨hp, hi⟩ hno

set_option maxHeartbeats 1000000 in
/-- Exhaustive case analysis of one word-derived-row step: abort (a
malformed `$`-word), silent skip, header row, grand-total row, or record
emission. -/
theorem wordStep_cases (rd pn : String) (s : PState) (d : DRow) :
    (wordStep rd pn s d = none ∧ (wNet? d = none ∨ wDisc? d = none))
  ∨ (wordStep rd pn s d = some (s, none) ∧ wordHeaderTok d = none ∧
      wordGtTok d = none)
  ∨ (∃ t, wordHeaderTok d = some t ∧ wordGtTok d = none ∧
      wordStep rd pn s d = some (⟨some t, s.gt⟩, none))
  ∨ (∃ v, wordGtTok d = some v ∧ wordHeaderTok d = none ∧
      wordStep rd pn s d = some (⟨s.ctx, some v⟩, none))
  ∨ (∃ n ds, wordHeaderTok d = none ∧ wordGtTok d = none ∧
      wNet? d = some n ∧ wDisc? d = some ds ∧
      ¬ (d.indicator = true ∧ ¬ strStarts d.categoryText "(" = true ∧ d.itemName = "") ∧
      d.categoryText ≠ "" ∧
      wordStep rd pn s d = some (s, some
        ⟨rd, "senso-sushi", s.ctx, d.categoryText, d.itemName, d.qty,
          pyRound2 n, pyRound2 ds, "pmix-pdf:" ++ pn⟩)) := by
  unfold wordStep wordHeaderTok wordGtTok
  cases hn : wNet? d with
  | none => exact Or.inl ⟨rfl, Or.inl rfl⟩
  | some n =>
    cases hd : wDisc? d with
    | none => exact Or.inl ⟨rfl, Or.inr rfl⟩
    | some ds =>
      split_ifs with h1 h2 h3 h4
      · exact Or.inr (Or.inr (Or.inl ⟨d.categoryText, rfl, rfl, rfl⟩))
      · exact Or.inr (Or.inr (Or.inr (Or.inl ⟨n, rfl, rfl, rfl⟩)))
      · exact Or.inr (Or.inl ⟨rfl, rfl, rfl⟩)
      · exact Or.inr (Or.inl ⟨rfl, rfl, rfl⟩)
      · refine Or.inr (Or.inr (Or.inr (Or.inr ⟨n, ds, rfl, rfl, rfl, rfl, ?_, ?_, rfl⟩)))
        · simpa using h3
        · simpa using h4

theorem wordStep_ctx (rd pn : String) (s : PState) (d : DRow) (s' : PState)
    (r? : Option Record) (h : wordStep rd pn s d = some (s', r?)) :
    s'.ctx = lastTokB (wordHeaderTok d) s.ctx := by
  rcases wordStep_cases rd pn s d with
      ⟨ha, _⟩ | ⟨ha, ht, _⟩ | ⟨t, ht, _, ha⟩ | ⟨v, _, ht, ha⟩ |
      ⟨n, ds, ht, _, _, _, _, _, ha⟩ <;> rw [ha] at h
  · exact absurd h (by simp)
  · rw [ht]; simp at h; rw [← h.1]; rfl
  · rw [ht]; simp at h; rw [← h.1]; rfl
  · rw [ht]; simp at h; rw [← h.1]; rfl
  · rw [ht]; simp at h; rw [← h.1]; rfl

theorem wordStep_gt (rd pn : String) (s : PState) (d : DRow) (s' : PState)
    (r? : Option Record) (h : wordStep rd pn s d = some (s', r?)) :
    s'.gt = lastTokB (wordGtTok d) s.gt := by
  rcases wordStep_cases rd pn s d with
      ⟨ha, _⟩ | ⟨ha, _, ht⟩ | ⟨t, _, ht, ha⟩ | ⟨v, ht, _, ha⟩ |
      ⟨n, ds, _, ht, _, _, _, _, ha⟩ <;> rw [ha] at h
  · exact absurd h (by simp)
  · rw [ht]; simp at h; rw [← h.1]; rfl
  · rw [ht]; simp at h; rw [← h.1]; rfl
  · rw [ht]; simp at h; rw [← h.1]; rfl
  · rw [ht]; simp at h; rw [← h.1]; rfl

theorem wordStep_header (rd pn : String) (s : PState) (d : DRow) (t : String)
    (out : PState × Option Record) (ht : wordHeaderTok d = some t)
    (h : wordStep rd pn s d = some out) :
    out = ({ s with ctx := some t }, none) := by
  rcases wordStep_cases rd pn s d with
      ⟨ha, _⟩ | ⟨ha, hh, _⟩ | ⟨u, hh, _, ha⟩ | ⟨v, _, hh, ha⟩ |
      ⟨n, ds, hh, _, _, _, _, _, ha⟩ <;> rw [ha] at h
  · exact absurd h (by simp)
  · rw [hh] at ht; exact absurd ht (by simp)
  · rw [hh] at ht; simp at ht; simp at h; rw [← h, ht]
  · rw [hh] at ht; exact absurd ht (by simp)
  · rw [hh] at ht; exact absurd ht (by simp)

theorem wordStep_gtRow (rd pn : String) (s : PState) (d : DRow) (v : ℚ)
    (out : PState × Option Record) (ht : wordGtTok d = some v)
    (h : wordStep rd pn s d = some out) :
    out = ({ s with gt := some v }, none) := by
  rcases wordStep_cases rd pn s d with
      ⟨ha, _⟩ | ⟨ha, _, hh⟩ | ⟨u, _, hh, ha⟩ | ⟨w, hh, _, ha⟩ |
      ⟨n, ds, _, hh, _, _, _, _, ha⟩ <;> rw [ha] at h
  · exact absurd h (by simp)
  · rw [hh] at ht; exact absurd ht (by simp)
  · rw [hh] at ht; exact absurd ht (by simp)
  · rw [hh] at ht; simp at ht; simp at h; rw [← h, ht]
  · rw [hh] at ht; exact absurd ht (by simp)

theorem wordStep_emit (rd pn : String) (s : PState) (d : DRow) (s' : PState)
    (rec : Record) (h : wordStep rd pn s d = some (s', some rec)) :
    s' = s ∧ rec.primary_category = s.ctx ∧ rec.quantity_sold = d.qty ∧
      ∃ n ds, wNet? d = some n ∧ wDisc? d = some ds ∧
        rec.net_sales = pyRound2 n ∧ rec.discount = pyRound2 ds := by
  rcases wordStep_cases rd pn s d with
      ⟨ha, _⟩ | ⟨ha, _, _⟩ | ⟨t, _, _, ha⟩ | ⟨v, _, _, ha⟩ |
      ⟨n, ds, _, _, hn, hd, _, _, ha⟩ <;> rw [ha] at h
  · exact absurd h (by simp)
  · simp at h
  · simp at h
  · simp at h
  · simp at h
    exact ⟨h.1.symm, by rw [← h.2], by rw [← h.2], n, ds, hn, hd, by rw [← h.2], by rw [← h.2]⟩

/-- A derived word row carrying the `100.00`-at-`x > 500` indicator, with a
category text not starting with `(` and an empty item name, never emits a
record. -/
theorem wordStep_subtotal (rd pn : String) (s : PState) (d : DRow)
    (out : PState × Option Record)
    (hind : d.indicator = true) (hcat : strStarts d.categoryText "(" = false)
    (hitem : d.itemName = "") (h : wordStep rd pn s d = some out) :
    out.2 = none := by
  rcases wordStep_cases rd pn s d with
      ⟨ha, _⟩ | ⟨ha, _, _⟩ | ⟨t, _, _, ha⟩ | ⟨v, _, _, ha⟩ |
      ⟨n, ds, _, _, _, _, hno, _, ha⟩ <;> rw [ha] at h
  · exact absurd h (by simp)
  · rw [← Option.some_inj.mp h]
  · rw [← Option.some_inj.mp h]
  · rw [← Option.some_inj.mp h]
  · exact absurd ⟨hind, by simp [hcat], hitem⟩ hno

/-! ## Sign lemmas for the value normalizers -/

theorem parseUnsigned?_nonneg (l : List Char) (q : ℚ)
    (h : parseUnsigned? l = some q) : 0 ≤ q := by
  simp only [parseUnsigned?] at h
  split at h
  · split at h
    · simp at h
    · simp at h; rw [← h]; positivity
  · split at h
    · simp at h; rw [← h]; positivity
    · simp at h
  · simp at h

theorem parseFloat?_nonneg (s : String) (c : Char) (l : List Char) (q : ℚ)
    (hd : s.data = c :: l) (hc : c.isDigit = true ∨ c = '.')
    (h : parseFloat? s = some q) : 0 ≤ q := by
  have hminus : c ≠ '-' := by
    rcases hc with hdig | hdot
    · intro he; rw [he] at hdig; simp [Char.isDigit] at hdig
    · intro he; rw [he] at hdot; exact absurd hdot (by decide)
  have hplus : c ≠ '+' := by
    rcases hc with hdig | hdot
    · intro he; rw [he] at hdig; simp [Char.isDigit] at hdig
    · intro he; rw [he] at hdot; exact absurd hdot (by decide)
  unfold parseFloat? at h
  rw [hd] at h
  split at h
  · rename_i heq
    rw [List.cons.injEq] at heq
    exact absurd heq.1 (fun he => hminus (by rw [he]))
  · rename_i heq
    rw [List.cons.injEq] at heq
    exact absurd heq.1 (fun he => hplus (by rw [he]))
  · exact parseUnsigned?_nonneg _ _ h

theorem ratTrunc_nonneg (q : ℚ) (h : 0 ≤ q) : 0 ≤ ratTrunc q := by
  unfold ratTrunc
  rw [if_pos h]
  exact Rat.le_floor.mpr (by exact_mod_cast h)

/-- A trailing element that the predicate rejects survives `dropWhile`. -/
theorem dropWhile_append_last (p : Char → Bool) (l : List Char) (c : Char)
    (hc : p c = false) : ∃ m, (l ++ [c]).dropWhile p = m ++ [c] := by
  induction l with
  | nil => exact ⟨[], by simp [List.dropWhile, hc]⟩
  | cons x xs ih =>
    by_cases hx : p x
    · obtain ⟨m, hm⟩ := ih
      exact ⟨m, by simp [List.dropWhile, hx, hm]⟩
    · exact ⟨x :: xs, by simp [List.dropWhile, hx]⟩

/-- Stripping preserves a non-whitespace first character. -/
theorem trimChars_head (c : Char) (l : List Char) (hc : isWsChar c = false) :
    ∃ l', trimChars (c :: l) = c :: l' := by
  unfold trimChars
  rw [List.dropWhile_cons_of_neg (by simp [hc])]
  have : (c :: l).reverse = l.reverse ++ [c] := by simp
  rw [this]
  obtain ⟨m, hm⟩ := dropWhile_append_last isWsChar l.reverse c hc
  exact ⟨m.reverse, by rw [hm]; simp⟩

theorem digit_not_ws (c : Char) (hc : c.isDigit = true ∨ c = '.') :
    isWsChar c = false := by
  rcases hc with hdig | hdot
  · unfold isWsChar
    simp only [Bool.or_eq_false_iff]
    refine ⟨⟨⟨?_, ?_⟩, ?_⟩, ?_⟩ <;>
      · simp only [decide_eq_false_iff_not]
        intro he; rw [he] at hdig; simp [Char.isDigit] at hdig
  · rw [hdot]; decide

/-- Function `parse_quantity` of a string whose first character is a digit or a dot
(the rows admitted by the quantity gate) is nonnegative whenever it
succeeds. -/
theorem parse_quantity_nonneg (v : String) (n : Int)
    (hnum : numLike v = true) (h : parse_quantity v = some n) : 0 ≤ n := by
  unfold numLike at hnum
  rcases hd : v.data with _ | ⟨c, l⟩
  · rw [hd] at hnum; simp at hnum
  · rw [hd] at hnum
    have hc : c.isDigit = true ∨ c = '.' := by
      rcases Bool.or_eq_true_iff.mp hnum with h1 | h2
      · exact Or.inl h1
      · exact Or.inr (by simpa using h2)
    by_cases hv : v = ""
    · unfold parse_quantity at h; rw [if_pos hv] at h
      simp at h; rw [← h]
    · unfold parse_quantity at h; rw [if_neg hv] at h
      simp only at h
      by_cases hcl : pyStrip v = ""
      · rw [if_pos hcl] at h; simp at h; rw [← h]
      · rw [if_neg hcl] at h
        obtain ⟨l', hl'⟩ := trimChars_head c l (digit_not_ws c hc)
        have hdata : (pyStrip v).data = c :: l' := by
          unfold pyStrip; rw [hd, hl']
        cases hq : parseFloat? (pyStrip v) with
        | none => rw [hq] at h; simp at h
        | some q =>
          rw [hq] at h; simp at h
          rw [← h]
          exact ratTrunc_nonneg q (parseFloat?_nonneg (pyStrip v) c l' q hdata hc hq)

unseal Rat.add Rat.sub Rat.mul Rat.inv Rat.ofScientific in
theorem pyRound2_zero : pyRound2 0 = 0 := by decide

/-! ## Claim theorems -/

/-- The cleaning step of `parse_currency`, written as the spec reads it:
remove every `$`, `,` and space in one pass, then strip whitespace. -/
def specCleanCurrency (s : String) : String :=
  pyStrip (String.mk (s.data.filter (fun c => decide (¬ (c = '$' ∨ c = ',' ∨ c = ' ')))))

theorem cleanCurrency_eq (s : String) :
    pyStrip (pyRemoveChar ' ' (pyRemoveChar ',' (pyRemoveChar '$' s))) =
      specCleanCurrency s := by
  unfold pyRemoveChar specCleanCurrency
  congr 2
  rw [List.filter_filter, List.filter_filter]
  exact List.filter_congr (fun a _ => by
    by_cases h1 : a = '$' <;> by_cases h2 : a = ',' <;> by_cases h3 : a = ' ' <;>
      simp [h1, h2, h3])

unseal Rat.add Rat.sub Rat.mul Rat.inv Rat.ofScientific in
/-- C8: `parse_currency` strips `$`, `,` and whitespace and parses the
remainder as a decimal number; the empty string (and an all-stripped
string) yields `0.0`; in particular `parse_currency("$ 1,234.56") = 1234.56`
and `parse_currency("") = 0.0`. -/
theorem parse_currency_spec :
    parse_currency "$ 1,234.56" = some (1234.56 : ℚ)
  ∧ parse_currency "" = some 0
  ∧ ∀ s : String, parse_currency s =
      (if specCleanCurrency s = "" then some 0
       else parseFloat? (specCleanCurrency s)) := by
  refine ⟨by decide, by decide, ?_⟩
  intro s
  unfold parse_currency
  by_cases hs : s = ""
  · subst hs
    rw [if_pos rfl, if_pos (by decide)]
  · rw [if_neg hs]
    simp only
    rw [cleanCurrency_eq]

/-- C2: the grand-total validator passes with the advisory message when no
PDF total is present, and otherwise fails exactly when the computed sum of
`net_sales` deviates from the PDF total by more than 1.00; the validator
only returns the flag and a message, so the records reach the caller
unchanged either way. -/
theorem validate_totals_spec (records : List Record) (t : ℚ) :
    validate_totals records none = (true, VMsg.noGrandTotal)
  ∧ ((validate_totals records (some t)).1 = false ↔
      1 < |(records.map Record.net_sales).sum - t|)
  ∧ ((validate_totals records (some t)).1 = true ↔
      |(records.map Record.net_sales).sum - t| ≤ 1) := by
  refine ⟨rfl, ?_, ?_⟩ <;>
    · unfold validate_totals
      by_cases h : 1 < |(records.map Record.net_sales).sum - t| <;>
        simp [h, not_lt.mp]

/-- A clean single-record set summing to 499.50 (within the 1.00
tolerance of a 500.00 PDF total). -/
def recNear : Record :=
  ⟨"2025-06-14", "senso-sushi", none, "Sushi", "Spicy Tuna Roll", 12,
    499.5, 0, "pmix-pdf:x.pdf"⟩

/-- A clean single-record set summing to 498.50 (1.50 away from 500.00). -/
def recOff : Record :=
  ⟨"2025-06-14", "senso-sushi", none, "Sushi", "Spicy Tuna Roll", 12,
    498.5, 0, "pmix-pdf:x.pdf"⟩

/-- A clean single-record set summing to 495.00. -/
def recFar : Record :=
  ⟨"2025-06-14", "senso-sushi", none, "Sushi", "Spicy Tuna Roll", 12,
    495, 0, "pmix-pdf:x.pdf"⟩

unseal Rat.add Rat.sub Rat.mul Rat.inv Rat.ofScientific in
/-- C3 counterexample: with PDF total 500.00 a record set summing to 498.50
differs by 1.50 > 1.00, so the heuristic validator flags it with a
total-mismatch issue — not "approved" as the claim asserts. -/
theorem validator_scenarioB_counterexample :
    (validate_with_claude [recOff] (some 500)).status = "flagged"
  ∧ (validate_with_claude [recOff] (some 500)).issues
      = [Issue.totalMismatch 498.5 500 1.5]
  ∧ ¬ (validate_with_claude [recOff] (some 500)).status = "approved" := by decide

unseal Rat.add Rat.sub Rat.mul Rat.inv Rat.ofScientific in
/-- C3 amended: with PDF total 500.00, a clean record set summing to 499.50
(diff 0.50 ≤ 1.00) is approved, while sets summing to 498.50 (diff 1.50)
and 495.00 (diff 5.00) are flagged with a `TotalMismatch` issue. -/
theorem validator_scenarioB_amended :
    (validate_with_claude [recNear] (some 500)).status = "approved"
  ∧ (validate_with_claude [recNear] (some 500)).issues = []
  ∧ (validate_with_claude [recOff] (some 500)).status = "flagged"
  ∧ Issue.totalMismatch 498.5 500 1.5 ∈ (validate_with_claude [recOff] (some 500)).issues
  ∧ (validate_with_claude [recFar] (some 500)).status = "flagged"
  ∧ Issue.totalMismatch 495 500 5 ∈ (validate_with_claude [recFar] (some 500)).issues := by
  decide

/-- The two rows of spec Scenario A: a single-cell `(Food)` header row
followed by the 8-cell Spicy Tuna Roll row. -/
def scenarioARows : List Row :=
  [[some "(Food)"],
   [some "Sushi", some "Spicy Tuna Roll", some "12.00", some "$144.00",
    some "$12.00", some "$0.00", some "10.0%", some "25.0%"]]

/-- What the table extractor actually emits for Scenario A. -/
def scenarioARecord : Record :=
  ⟨"2025-06-14", "senso-sushi", none, "Sushi", "Spicy Tuna Roll", 12,
    144, 0, "pmix-pdf:pmix-senso-2025-06-14.pdf"⟩

unseal Rat.add Rat.sub Rat.mul Rat.inv Rat.ofScientific in
/-- C1 counterexample: on the Scenario A input the single-cell `["(Food)"]`
row is dropped by the fewer-than-8-cells guard before the header rules can
run, so the emitted record's `primary_category` is `None`, not `"(Food)"`
as the claim asserts. -/
theorem scenarioA_counterexample :
    parse_from_table scenarioARows "2025-06-14" "pmix-senso-2025-06-14.pdf"
      = some ([scenarioARecord], none)
  ∧ scenarioARecord.primary_category = none
  ∧ ¬ scenarioARecord.primary_category = some "(Food)" := by decide

unseal Rat.add Rat.sub Rat.mul Rat.inv Rat.ofScientific in
/-- C1 amended: on the Scenario A input the table extractor emits exactly
one record with category `"Sushi"`, item name `"Spicy Tuna Roll"`,
quantity 12, net sales 144.00, discount 0.00 — and `primary_category`
`None`, because the one-cell `["(Food)"]` header row is skipped by the
short-row guard. -/
theorem scenarioA_amended :
    parse_from_table scenarioARows "2025-06-14" "pmix-senso-2025-06-14.pdf"
      = some ([⟨"2025-06-14", "senso-sushi", none, "Sushi", "Spicy Tuna Roll",
          12, 144, 0, "pmix-pdf:pmix-senso-2025-06-14.pdf"⟩], none) := by decide

/-- C5: a table row whose percent-of-category cell (index 7) strips to
exactly `"100.00%"` with an empty item-name cell never emits a record, and
a word-derived data row carrying the `"100.00"`-at-`x0 > 500` indicator
whose category text does not open a parenthesis and whose reconstructed
item name is empty never emits a record; the third conjunct pins the
indicator of a derived row to the literal-text condition of the source. -/
theorem subtotal_rows_never_emit (rd pn : String) :
    (∀ (s : PState) (row : Row) (out : PState × Option Record),
      pyStrip (cellStr row 7) = "100.00%" → cell1 row = "" →
      tableStep rd pn s row = some out → out.2 = none)
  ∧ (∀ (s : PState) (d : DRow) (out : PState × Option Record),
      d.indicator = true → strStarts d.categoryText "(" = false → d.itemName = "" →
      wordStep rd pn s d = some out → out.2 = none)
  ∧ (∀ (ws : List Word) (y : ℚ) (rw : List Word),
      (deriveRow ws y rw).indicator =
        rw.any (fun w => decide (w.text = "100.00") && decide (500 < w.x0))) :=
  ⟨fun s row out hp hi h => tableStep_subtotal rd pn s row out hp hi h,
   fun s d out hind hcat hitem h => wordStep_subtotal rd pn s d out hind hcat hitem h,
   fun _ _ _ => rfl⟩

/-- A category-subtotal table row: empty item name, percent cell 100.00%. -/
def subtotalRow : Row :=
  [some "Apps", some "", some "5.00", some "$10.00", none, some "$0.00",
   none, some "100.00%"]

unseal Rat.add Rat.sub Rat.mul Rat.inv Rat.ofScientific in
theorem subtotal_rows_never_emit_witness :
    pyStrip (cellStr subtotalRow 7) = "100.00%" ∧ cell1 subtotalRow = "" ∧
      ((⟨⟨none, none⟩, (none : Option Record)⟩ : PState × Option Record).2 = none) :=
  ⟨by decide, by decide,
    (subtotal_rows_never_emit "2025-06-14" "x.pdf").1 ⟨none, none⟩ subtotalRow
      (⟨none, none⟩, none) (by decide) (by decide) (by decide)⟩

/-- C6: in both extractors the primary-category context starts as `None`,
evolves only at header rows (which emit no record and set it to their
parenthesized token), and every emitted record carries the token of the
last header row preceding it — `None` when no header preceded. -/
theorem primary_category_context (rd pn : String) :
    (∀ (s : PState) (row : Row) (s' : PState) (r? : Option Record),
      tableStep rd pn s row = some (s', r?) →
      s'.ctx = lastTokB (tableHeaderTok row) s.ctx)
  ∧ (∀ (s : PState) (row : Row) (t : String), tableHeaderTok row = some t →
      tableStep rd pn s row = some ({ s with ctx := some t }, none))
  ∧ (∀ (pre : List Row) (s1 : PState) (recs1 : List Record) (row : Row)
      (s2 : PState) (rec : Record),
      runSteps (tableStep rd pn) ⟨none, none⟩ pre = some (s1, recs1) →
      tableStep rd pn s1 row = some (s2, some rec) →
      rec.primary_category = lastTokFrom tableHeaderTok none pre)
  ∧ (∀ (s : PState) (d : DRow) (s' : PState) (r? : Option Record),
      wordStep rd pn s d = some (s', r?) →
      s'.ctx = lastTokB (wordHeaderTok d) s.ctx)
  ∧ (∀ (s : PState) (d : DRow) (t : String) (out : PState × Option Record),
      wordHeaderTok d = some t → wordStep rd pn s d = some out →
      out = ({ s with ctx := some t }, none))
  ∧ (∀ (pre : List DRow) (s1 : PState) (recs1 : List Record) (d : DRow)
      (s2 : PState) (rec : Record),
      runSteps (wordStep rd pn) ⟨none, none⟩ pre = some (s1, recs1) →
      wordStep rd pn s1 d = some (s2, some rec) →
      rec.primary_category = lastTokFrom wordHeaderTok none pre)
  ∧ (∀ pre : List Row, (∀ row ∈ pre, tableHeaderTok row = none) →
      lastTokFrom tableHeaderTok none pre = none)
  ∧ (∀ pre : List DRow, (∀ d ∈ pre, wordHeaderTok d = none) →
      lastTokFrom wordHeaderTok none pre = none) := by
  refine ⟨fun s row s' r? h => tableStep_ctx rd pn s row s' r? h,
    fun s row t h => tableStep_header rd pn s row t h,
    fun pre s1 recs1 row s2 rec hrun hstep => ?_,
    fun s d s' r? h => wordStep_ctx rd pn s d s' r? h,
    fun s d t out ht h => wordStep_header rd pn s d t out ht h,
    fun pre s1 recs1 d s2 rec hrun hstep => ?_,
    fun pre hpre => lastTokFrom_none tableHeaderTok none pre hpre,
    fun pre hpre => lastTokFrom_none wordHeaderTok none pre hpre⟩
  · have h1 := (tableStep_emit rd pn s1 row s2 rec hstep).2.1
    have h2 := runSteps_proj (tableStep rd pn) PState.ctx tableHeaderTok
      (fun s a s' r? h => tableStep_ctx rd pn s a s' r? h) pre ⟨none, none⟩ s1 recs1 hrun
    exact h1.trans h2
  · have h1 := (wordStep_emit rd pn s1 d s2 rec hstep).2.1
    have h2 := runSteps_proj (wordStep rd pn) PState.ctx wordHeaderTok
      (fun s a s' r? h => wordStep_ctx rd pn s a s' r? h) pre ⟨none, none⟩ s1 recs1 hrun
    exact h1.trans h2

/-- An 8-cell `(Food)` header row, as a real table produces it. -/
def foodHeaderRow : Row :=
  [some "(Food)", none, none, none, none, none, none, none]

/-- The Spicy Tuna Roll item row. -/
def sushiRow : Row :=
  [some "Sushi", some "Spicy Tuna Roll", some "12.00", some "$144.00",
   some "$12.00", some "$0.00", some "10.0%", some "25.0%"]

unseal Rat.add Rat.sub Rat.mul Rat.inv Rat.ofScientific in
theorem primary_category_context_witness :
    (⟨"2025-06-14", "senso-sushi", some "(Food)", "Sushi", "Spicy Tuna Roll",
        12, 144, 0, "pmix-pdf:x.pdf"⟩ : Record).primary_category
      = lastTokFrom tableHeaderTok none [foodHeaderRow] :=
  (primary_category_context "2025-06-14" "x.pdf").2.2.1 [foodHeaderRow]
    ⟨some "(Food)", none⟩ [] sushiRow ⟨some "(Food)", none⟩
    ⟨"2025-06-14", "senso-sushi", some "(Food)", "Sushi", "Spicy Tuna Roll",
      12, 144, 0, "pmix-pdf:x.pdf"⟩
    (by decide) (by decide)

/-- A plain grand-total row. -/
def grandTotalRow : Row :=
  [some "Grand Total", none, none, some "$100.00", none, none, none, none]

/-- A fully parenthesized cell that also contains the text "Grand Total":
the header rule consumes it before the grand-total rule can. -/
def parenGrandTotalRow : Row :=
  [some "(Grand Total)", none, none, some "$200.00", none, none, none, none]

unseal Rat.add Rat.sub Rat.mul Rat.inv Rat.ofScientific in
/-- C10 counterexample: the last row whose first cell contains
`"Grand Total"` is the fully parenthesized one carrying 200.00, but the
header rule fires first for it, so the parse returns 100.00 from the
earlier plain grand-total row — not the last occurrence's value. -/
theorem grand_total_counterexample :
    parse_from_table [grandTotalRow, parenGrandTotalRow] "2025-06-14" "x.pdf"
      = some ([], some 100)
  ∧ hasSubStr (cell0 parenGrandTotalRow) "Grand Total" = true
  ∧ parse_currency (netStr parenGrandTotalRow) = some 200
  ∧ ¬ (100 : ℚ) = 200 := by decide

/-- C10 amended: a row that reaches the grand-total rule (first cell
contains `"Grand Total"` and no header rule consumed it; on the word path,
category text containing `"Grand"` and `"Total"` and not fully
parenthesized) overwrites the stored value and emits no record, and each
extractor returns the value of the last such row, `None` when there is
none. -/
theorem grand_total_last_wins (rd pn : String) :
    (∀ (s : PState) (row : Row) (s' : PState) (r? : Option Record),
      tableStep rd pn s row = some (s', r?) →
      s'.gt = lastTokB (tableGtTok row) s.gt)
  ∧ (∀ (s : PState) (row : Row) (v : ℚ), tableGtTok row = some v →
      tableStep rd pn s row = some ({ s with gt := some v }, none))
  ∧ (∀ (rows : List Row) (rd2 pp : String) (recs : List Record) (gt : Option ℚ),
      parse_from_table rows rd2 pp = some (recs, gt) →
      gt = lastTokFrom tableGtTok none rows)
  ∧ (∀ (s : PState) (d : DRow) (v : ℚ) (out : PState × Option Record),
      wordGtTok d = some v → wordStep rd pn s d = some out →
      out = ({ s with gt := some v }, none))
  ∧ (∀ (pages : List PdfPage) (rd2 pp : String) (recs : List Record)
      (gt : Option ℚ),
      parse_from_words pages rd2 pp = some (recs, gt) →
      gt = lastTokFrom wordGtTok none (docDRows pages)) := by
  refine ⟨fun s row s' r? h => tableStep_gt rd pn s row s' r? h,
    fun s row v h => tableStep_gtRow rd pn s row v h,
    fun rows rd2 pp recs gt h => ?_,
    fun s d v out ht h => wordStep_gtRow rd pn s d v out ht h,
    fun pages rd2 pp recs gt h => ?_⟩
  · unfold parse_from_table at h
    cases hrun : runSteps (tableStep rd2 (pathName pp)) ⟨none, none⟩ rows with
    | none => rw [hrun] at h; exact absurd h (by simp)
    | some p =>
      obtain ⟨sf, recs'⟩ := p
      rw [hrun] at h
      simp at h
      rw [← h.2]
      exact runSteps_proj (tableStep rd2 (pathName pp)) PState.gt tableGtTok
        (fun s a s' r? hh => tableStep_gt rd2 (pathName pp) s a s' r? hh)
        rows ⟨none, none⟩ sf recs' hrun
  · unfold parse_from_words at h
    cases hrun : runSteps (wordStep rd2 (pathName pp)) ⟨none, none⟩ (docDRows pages) with
    | none => rw [hrun] at h; exact absurd h (by simp)
    | some p =>
      obtain ⟨sf, recs'⟩ := p
      rw [hrun] at h
      simp at h
      rw [← h.2]
      exact runSteps_proj (wordStep rd2 (pathName pp)) PState.gt wordGtTok
        (fun s a s' r? hh => wordStep_gt rd2 (pathName pp) s a s' r? hh)
        (docDRows pages) ⟨none, none⟩ sf recs' hrun

unseal Rat.add Rat.sub Rat.mul Rat.inv Rat.ofScientific in
theorem grand_total_last_wins_witness :
    (some 100 : Option ℚ) =
      lastTokFrom tableGtTok none [grandTotalRow, parenGrandTotalRow] :=
  (grand_total_last_wins "d" "p").2.2.1 [grandTotalRow, parenGrandTotalRow]
    "2025-06-14" "x.pdf" [] (some 100) (by decide)

theorem tableStep_short (rd pn : String) (s : PState) (row : Row)
    (h : row = [] ∨ row.length < 8) : tableStep rd pn s row = some (s, none) := by
  unfold tableStep; rw [if_pos h]

/-- A word-extractor page whose single data row has no `$`-prefixed
currency words at all. -/
def pageNoCurrency : PdfPage :=
  ⟨[], [⟨"Sushi", 10, 100⟩, ⟨"5", 190, 100⟩]⟩

unseal Rat.add Rat.sub Rat.mul Rat.inv Rat.ofScientific in
/-- C7 counterexample: a word-derived data row with no dollar-prefixed
currency words is not skipped — the extractor emits a record for it, with
the missing values defaulted to 0.0 — contradicting the claim that such a
row contributes no record. -/
theorem malformed_rows_counterexample :
    parse_from_words [pageNoCurrency] "2025-06-14" "p.pdf"
      = some ([⟨"2025-06-14", "senso-sushi", none, "Sushi", "", 5, 0, 0,
          "pmix-pdf:p.pdf"⟩], none)
  ∧ pageNoCurrency.words.all (fun w => ¬ strStarts w.text "$") = true := by decide

/-- C7 amended: a table row that is empty or has fewer than 8 cells is
skipped — removing it from the scan changes nothing — while a word-derived
data row with no dollar-prefixed currency words is *not* skipped: its
currency conversions cannot abort and, when the row is classified as an
item row, it emits a record whose net sales and discount default to 0.0. -/
theorem malformed_rows_amended (rd pn : String) :
    (∀ (s : PState) (pre post : List Row) (row : Row),
      row = [] ∨ row.length < 8 →
      runSteps (tableStep rd pn) s (pre ++ row :: post) =
        runSteps (tableStep rd pn) s (pre ++ post))
  ∧ (∀ (s : PState) (d : DRow), d.currencyWords = [] →
      ∃ out, wordStep rd pn s d = some out ∧
        ∀ rec, out.2 = some rec → rec.net_sales = 0 ∧ rec.discount = 0) := by
  constructor
  · intro s pre post row hrow
    rw [runSteps_append, runSteps_append]
    cases hpre : runSteps (tableStep rd pn) s pre with
    | none => rfl
    | some p =>
      obtain ⟨s1, r1⟩ := p
      simp only
      rw [runSteps_skip (tableStep rd pn) s1 row post (tableStep_short rd pn s1 row hrow)]
  · intro s d hw
    have hn : wNet? d = some 0 := by unfold wNet?; rw [hw]; rfl
    have hd : wDisc? d = some 0 := by unfold wDisc?; rw [hw]; rfl
    rcases wordStep_cases rd pn s d with
        ⟨ha, habort⟩ | ⟨ha, _, _⟩ | ⟨t, _, _, ha⟩ | ⟨v, _, _, ha⟩ |
        ⟨n, ds, _, _, hn', hd', _, _, ha⟩
    · rcases habort with hcon | hcon
      · rw [hn] at hcon; exact absurd hcon (by simp)
      · rw [hd] at hcon; exact absurd hcon (by simp)
    · exact ⟨(s, none), ha, fun rec hrec => absurd hrec (by simp)⟩
    · exact ⟨(⟨some t, s.gt⟩, none), ha, fun rec hrec => absurd hrec (by simp)⟩
    · exact ⟨(⟨s.ctx, some v⟩, none), ha, fun rec hrec => absurd hrec (by simp)⟩
    · rw [hn] at hn'; rw [hd] at hd'
      have hn0 : n = 0 := by simpa using hn'.symm
      have hd0 : ds = 0 := by simpa using hd'.symm
      subst hn0; subst hd0
      refine ⟨_, ha, fun rec hrec => ?_⟩
      have : rec = ⟨rd, "senso-sushi", s.ctx, d.categoryText, d.itemName, d.qty,
          pyRound2 0, pyRound2 0, "pmix-pdf:" ++ pn⟩ := by simpa using hrec.symm
      rw [this]
      exact ⟨pyRound2_zero, pyRound2_zero⟩

unseal Rat.add Rat.sub Rat.mul Rat.inv Rat.ofScientific in
theorem malformed_rows_amended_witness :
    runSteps (tableStep "2025-06-14" "x.pdf") ⟨none, none⟩ ([] ++ ([] : Row) :: [sushiRow]) =
      runSteps (tableStep "2025-06-14" "x.pdf") ⟨none, none⟩ ([] ++ [sushiRow]) :=
  (malformed_rows_amended "2025-06-14" "x.pdf").1 ⟨none, none⟩ [] [sushiRow] []
    (Or.inl rfl)

/-- A table row with a negative discount cell. -/
def negativeDiscountRow : Row :=
  [some "Sushi", some "Roll", some "5.00", some "$10.00", some "$2.00",
   some "-$1.00", some "1%", some "2%"]

unseal Rat.add Rat.sub Rat.mul Rat.inv Rat.ofScientific in
/-- C9 counterexample: the extractors never enforce `discount ≥ 0` — a row
whose discount cell reads `-$1.00` yields a record with discount −1.00. -/
theorem record_constraints_counterexample :
    parse_from_table [negativeDiscountRow] "2025-06-14" "x.pdf"
      = some ([⟨"2025-06-14", "senso-sushi", none, "Sushi", "Roll", 5, 10, -1,
          "pmix-pdf:x.pdf"⟩], none)
  ∧ ((-1 : ℚ) < 0) := by decide

theorem deriveRow_qty_nonneg (ws : List Word) (y : ℚ) (rw : List Word) :
    0 ≤ (deriveRow ws y rw).qty := by
  unfold deriveRow
  simp only
  cases (rw.filter (fun w =>
      decide (185 ≤ w.x0) && decide (w.x0 < 220) && isDigitStr w.text)).head? with
  | none => simp
  | some w => simp

/-- C9 amended: every record emitted by `parse_pmix_pdf` — on either
extraction path — has a nonnegative `quantity_sold`; the `discount ≥ 0`
half of the claim is refuted by the counterexample (net sales may be
negative either way). -/
theorem record_quantity_nonneg (pages : List PdfPage) (rd pp : String)
    (recs : List Record) (gt : Option ℚ)
    (h : parse_pmix_pdf pages rd pp = some (recs, gt)) :
    ∀ r ∈ recs, 0 ≤ r.quantity_sold := by
  unfold parse_pmix_pdf at h
  cases hf : find_data_table pages with
  | some rows =>
    rw [hf] at h
    simp only at h
    unfold parse_from_table at h
    cases hrun : runSteps (tableStep rd (pathName pp)) ⟨none, none⟩ rows with
    | none => rw [hrun] at h; exact absurd h (by simp)
    | some p =>
      obtain ⟨sf, recs'⟩ := p
      rw [hrun] at h
      simp at h
      intro r hr
      rw [← h.1] at hr
      refine runSteps_records (tableStep rd (pathName pp))
        (fun rec => 0 ≤ rec.quantity_sold) rows ?_ ⟨none, none⟩ sf recs' hrun r hr
      intro s a s' rec _ hstep
      obtain ⟨_, _, hnum, q, hq, hqty⟩ := tableStep_emit rd (pathName pp) s a s' rec hstep
      rw [hqty]
      exact parse_quantity_nonneg (cellStr a 2) q hnum hq
  | none =>
    rw [hf] at h
    simp only at h
    unfold parse_from_words at h
    cases hrun : runSteps (wordStep rd (pathName pp)) ⟨none, none⟩ (docDRows pages) with
    | none => rw [hrun] at h; exact absurd h (by simp)
    | some p =>
      obtain ⟨sf, recs'⟩ := p
      rw [hrun] at h
      simp at h
      intro r hr
      rw [← h.1] at hr
      refine runSteps_records (wordStep rd (pathName pp))
        (fun rec => 0 ≤ rec.quantity_sold) (docDRows pages) ?_ ⟨none, none⟩ sf recs' hrun r hr
      intro s a s' rec ha hstep
      obtain ⟨_, _, hqty, _⟩ := wordStep_emit rd (pathName pp) s a s' rec hstep
      rw [hqty]
      unfold docDRows at ha
      obtain ⟨l, hl, hal⟩ := List.mem_flatten.mp ha
      obtain ⟨pg, _, hpg⟩ := List.mem_map.mp hl
      rw [← hpg] at hal
      obtain ⟨q, _, hq⟩ := List.mem_map.mp hal
      rw [← hq]
      exact deriveRow_qty_nonneg pg.words q.1 q.2

unseal Rat.add Rat.sub Rat.mul Rat.inv Rat.ofScientific in
theorem record_quantity_nonneg_witness :
    0 ≤ (⟨"2025-06-14", "senso-sushi", none, "Sushi", "", 5, 0, 0,
        "pmix-pdf:p.pdf"⟩ : Record).quantity_sold :=
  record_quantity_nonneg [pageNoCurrency] "2025-06-14" "p.pdf"
    [⟨"2025-06-14", "senso-sushi", none, "Sushi", "", 5, 0, 0, "pmix-pdf:p.pdf"⟩]
    none (by decide)
    ⟨"2025-06-14", "senso-sushi", none, "Sushi", "", 5, 0, 0, "pmix-pdf:p.pdf"⟩
    (by decide)

/-- An 11-row table whose rows are all the single cell `["(Food)"]`:
every row has a parenthesized first cell, yet none has 8 cells. -/
def thinTable : List Row := List.replicate 11 [some "(Food)"]

unseal Rat.add Rat.sub Rat.mul Rat.inv Rat.ofScientific in
/-- C4 counterexample: this table has more than 10 rows and rows with a
parenthesized first cell, so the claim says it is accepted — but the
qualifying-row test also demands at least 8 cells, so `find_data_table`
rejects the whole document and the word path would be taken. -/
theorem dispatcher_counterexample :
    10 < thinTable.length
  ∧ thinTable.all (fun r => strStarts (cellStr r 0) "(") = true
  ∧ find_data_table [⟨[thinTable], []⟩] = none := by decide

theorem find?_first_of_pre (p : List Row → Bool) (pre : List (List Row))
    (t : List Row) (post : List (List Row))
    (hpre : ∀ u ∈ pre, p u = false) (ht : p t = true) :
    (pre ++ t :: post).find? p = some t := by
  induction pre with
  | nil => exact List.find?_cons_of_pos post ht
  | cons a l ih =>
    rw [List.cons_append,
      List.find?_cons_of_neg _ (by simp [hpre a (List.mem_cons_self a l)])]
    exact ih (fun u hu => hpre u (List.mem_cons_of_mem a hu))

/-- C4 amended: on each page only the first table with more than 10 rows is
examined; it is accepted exactly when one of its rows passes `dtRowOk`
(at least 8 cells, non-empty first cell, and a first cell starting with
`(` or a non-empty numeric-looking third cell); a page all of whose tables
have at most 10 rows contributes nothing; if any page contributes, the
concatenation of the accepted tables' rows goes to the table extractor,
otherwise the document goes to the word-position extractor. -/
theorem dispatcher_amended (pages : List PdfPage) (rd pp : String) :
    (∀ (tables : List (List Row)) (pre : List (List Row)) (t : List Row)
      (post : List (List Row)),
      tables = pre ++ t :: post → (∀ u ∈ pre, u.length ≤ 10) → 10 < t.length →
      pageTableRows tables = (if t.any dtRowOk then t else []))
  ∧ (∀ tables : List (List Row), (∀ t ∈ tables, t.length ≤ 10) →
      pageTableRows tables = [])
  ∧ (∀ row : Row, dtRowOk row = true ↔
      (row ≠ [] ∧ 8 ≤ row.length ∧ cellStr row 0 ≠ "" ∧
        (strStarts (cellStr row 0) "(" = true ∨
          (cellStr row 2 ≠ "" ∧ numLike (cellStr row 2) = true))))
  ∧ ((∃ p ∈ pages, pageTableRows p.tables ≠ []) →
      parse_pmix_pdf pages rd pp =
        parse_from_table ((pages.map (fun p => pageTableRows p.tables)).flatten) rd pp)
  ∧ ((∀ p ∈ pages, pageTableRows p.tables = []) →
      parse_pmix_pdf pages rd pp = parse_from_words pages rd pp) := by
  refine ⟨?_, ?_, ?_, ?_, ?_⟩
  · intro tables pre t post htab hpre ht
    unfold pageTableRows
    rw [htab, find?_first_of_pre _ pre t post
      (fun u hu => by simpa using not_lt.mpr (hpre u hu)) (by simpa using ht)]
  · intro tables hsmall
    unfold pageTableRows
    rw [List.find?_eq_none.mpr (fun t htmem => by simpa using not_lt.mpr (hsmall t htmem))]
  · intro row
    unfold dtRowOk
    constructor
    · intro h
      simp only [Bool.and_eq_true, Bool.or_eq_true, decide_eq_true_eq] at h
      exact ⟨h.1.1, h.1.2, h.2.1, by
        rcases h.2.2 with h1 | h2
        · exact Or.inl h1
        · exact Or.inr ⟨h2.1, h2.2⟩⟩
    · intro h
      simp only [Bool.and_eq_true, Bool.or_eq_true, decide_eq_true_eq]
      exact ⟨⟨h.1, h.2.1⟩, h.2.2.1, by
        rcases h.2.2.2 with h1 | h2
        · exact Or.inl h1
        · exact Or.inr ⟨h2.1, h2.2⟩⟩
  · intro hex
    unfold parse_pmix_pdf find_data_table
    have hne : (pages.map (fun p => pageTableRows p.tables)).flatten ≠ [] := by
      intro hnil
      obtain ⟨p, hp, hpne⟩ := hex
      exact hpne (List.flatten_eq_nil_iff.mp hnil (pageTableRows p.tables)
        (List.mem_map.mpr ⟨p, hp, rfl⟩))
    rw [if_neg hne]
  · intro hall
    unfold parse_pmix_pdf find_data_table
    have hnil : (pages.map (fun p => pageTableRows p.tables)).flatten = [] := by
      rw [List.flatten_eq_nil_iff]
      intro l hl
      obtain ⟨p, hp, hpl⟩ := List.mem_map.mp hl
      rw [← hpl]
      exact hall p hp
    rw [if_pos hnil]

unseal Rat.add Rat.sub Rat.mul Rat.inv Rat.ofScientific in
theorem dispatcher_amended_witness :
    parse_pmix_pdf [pageNoCurrency] "2025-06-14" "p.pdf" =
      parse_from_words [pageNoCurrency] "2025-06-14" "p.pdf" :=
  (dispatcher_amended [pageNoCurrency] "2025-06-14" "p.pdf").2.2.2.2
    (by intro p hp; simp at hp; rw [hp]; decide)

end Pmix
